import Mathlib

/-!
Verification development for the CropMOSAIKS featurization pipeline
(`rcf_multiband.ipynb`): a shallow embedding of the notebook's core logic —
scene matching, patch extraction/normalization, the random convolutional
feature (RCF) model, and the per-period orchestration loop — together with
theorems settling the specification's claims.

Modelling conventions:
* Python floats are modelled as `FVal := Option ℚ`, where `none` stands for a
  non-finite value (NaN or ±infinity, as produced by `0/0` or `x/0` in numpy).
  All finite inputs are rationals; the only source of non-finite values in the
  pipeline is the min-max normalization's division.
* External collaborators (the STAC catalog, `dask_geopandas.hilbert_distance`,
  the raster read performed by `stackstac`) are parameters of the embedded
  functions: a catalog response per partition, a Hilbert key per point, and a
  per-(point, scene) raster-read result.
* Python exceptions are the inductive `PyExc`; fallible steps return `Except`.
-/

/-- A Python exception class, as far as the notebook distinguishes them. -/
inductive PyExc where
  | valueError
  | unboundLocalError
  | attributeError
  | assertionError
  | otherExc (msg : String)
deriving DecidableEq

/-- A float value: `some q` is a finite value, `none` is non-finite (NaN/inf). -/
abbrev FVal := Option ℚ

/-- Float addition; non-finite values propagate (models IEEE NaN propagation). -/
def fadd : FVal → FVal → FVal
  | some a, some b => some (a + b)
  | _, _ => none

/-- Float multiplication with NaN propagation. -/
def fmul : FVal → FVal → FVal
  | some a, some b => some (a * b)
  | _, _ => none

/-- Float negation with NaN propagation. -/
def fneg : FVal → FVal
  | some a => some (-a)
  | none => none

/-- `torch.nn.functional.relu`: clamp below at zero; NaN propagates
(`relu(nan) = nan` in PyTorch). -/
def frelu : FVal → FVal
  | some a => some (max a 0)
  | none => none

/-- Float division: division by zero yields a non-finite value (`0/0` is NaN,
`x/0` is ±inf); non-finite operands propagate. -/
def fdiv : FVal → FVal → FVal
  | some a, some b => if b = 0 then none else some (a / b)
  | _, _ => none

/-- A sample point of the Point Store: one row of the `gdf` frame
(`lon`, `lat` columns). -/
structure Point where
  lon : ℚ
  lat : ℚ
deriving DecidableEq

/-- One STAC item returned by the catalog search, reduced to the fields the
notebook's `query` function reads: its id, its `eo:cloud_cover` property, and
its footprint geometry, embedded as the induced covers-test
(`shapely`'s `geometry.covers(point)`). -/
structure SceneCandidate where
  sid : Nat
  cloudCover : ℚ
  covers : Point → Bool

/-- The comparison `query` sorts candidate items by:
`items.sort_values("eo:cloud_cover")`, ascending cloud cover. -/
def cloudLE (a b : SceneCandidate) : Prop := a.cloudCover ≤ b.cloudCover

instance : DecidableRel cloudLE :=
  fun a b => inferInstanceAs (Decidable (a.cloudCover ≤ b.cloudCover))

instance : IsTotal SceneCandidate cloudLE :=
  ⟨fun a b => le_total a.cloudCover b.cloudCover⟩

instance : IsTrans SceneCandidate cloudLE :=
  ⟨fun _ _ _ h1 h2 => le_trans h1 h2⟩

/-- `items = GeoDataFrame(...).sort_values("eo:cloud_cover")`: the candidate
list ordered by ascending cloud cover (a stable sort by that key). -/
def sortItems (items : List SceneCandidate) : List SceneCandidate :=
  List.insertionSort cloudLE items

/-- Per point, `query` takes `covered_by = items[items.covers(point)]` on the
cloud-sorted frame and keeps the first row if any, else records `None`:
the least-cloudy candidate whose footprint covers the point. -/
def matchPoint (items : List SceneCandidate) (p : Point) : Option SceneCandidate :=
  (sortItems items).find? (fun it => it.covers p)

/-- The notebook's `query(points)` for one partition: one catalog search for
the whole partition (`cat` is the catalog's response to that search — a list
of candidate items, or a raised exception), then a per-point scan producing
the `stac_item` column. A catalog exception is not caught anywhere in
`query`, so it propagates. -/
def query (cat : List Point → Except PyExc (List SceneCandidate))
    (pts : List Point) : Except PyExc (List (Point × Option SceneCandidate)) :=
  match cat pts with
  | .error e => .error e
  | .ok items => .ok (pts.map (fun p => (p, matchPoint items p)))

-- ### Scene-matching theorems (first-covering-after-cloud-sort policy)

/-- Over a cloud-sorted list, `find?` returns a candidate at least as cloudless
as every other candidate in the list satisfying the predicate. -/
theorem find_sorted_least (l : List SceneCandidate) (p : Point) (c : SceneCandidate)
    (hs : List.Sorted cloudLE l) (h : l.find? (fun it => it.covers p) = some c) :
    ∀ c2 ∈ l, c2.covers p = true → c.cloudCover ≤ c2.cloudCover := by
  induction l with
  | nil => simp at h
  | cons a t ih =>
    by_cases ha : a.covers p = true
    · simp only [List.find?, ha] at h
      cases h
      intro c2 hc2 _
      rcases List.mem_cons.mp hc2 with rfl | hmem
      · exact le_refl _
      · exact List.rel_of_sorted_cons hs _ hmem
    · have ha2 : a.covers p = false := by simpa using ha
      simp only [List.find?, ha2] at h
      intro c2 hc2 hcov
      rcases List.mem_cons.mp hc2 with rfl | hmem
      · exact absurd hcov ha
      · exact ih hs.of_cons h c2 hmem hcov

/-- C2: for every partition and period, each point is assigned at most one
scene: candidates returned by the catalog are sorted by ascending cloud cover
(`sort_values("eo:cloud_cover")`), the first candidate in that order whose
footprint covers the point is selected, and `None` is recorded if no candidate
covers the point. -/
theorem matchPoint_first_least_cloudy (items : List SceneCandidate) (p : Point) :
    (∀ c, matchPoint items p = some c →
      c ∈ items ∧ c.covers p = true ∧
        ∀ c2 ∈ items, c2.covers p = true → c.cloudCover ≤ c2.cloudCover) ∧
    (matchPoint items p = none ↔ ∀ c ∈ items, c.covers p = false) := by
  have hperm := List.perm_insertionSort cloudLE items
  have hsorted := List.sorted_insertionSort cloudLE items
  constructor
  · intro c hc
    simp only [matchPoint] at hc
    refine ⟨?_, ?_, ?_⟩
    · exact hperm.mem_iff.mp (List.mem_of_find?_eq_some hc)
    · have h2 := List.find?_some hc
      simpa using h2
    · intro c2 hc2 hcov
      exact find_sorted_least _ p c hsorted hc c2 (hperm.mem_iff.mpr hc2) hcov
  · rw [matchPoint, List.find?_eq_none]
    constructor
    · intro hnone c hmem
      have := hnone c (hperm.mem_iff.mpr hmem)
      simpa using this
    · intro hall c hmem
      simp [hall c (hperm.mem_iff.mp hmem)]

/-- A scene with 10% cloud cover whose footprint covers everything. -/
def scCloudy : SceneCandidate := ⟨1, 10, fun _ => true⟩

/-- A scene with 5% cloud cover whose footprint covers everything. -/
def scClear : SceneCandidate := ⟨2, 5, fun _ => true⟩

/-- A concrete sample point. -/
def ptW : Point := ⟨0, 0⟩

theorem matchPoint_first_least_cloudy_witness :
    scClear ∈ [scCloudy, scClear] ∧ scClear.covers ptW = true ∧
      scClear.cloudCover ≤ scCloudy.cloudCover := by
  have h := (matchPoint_first_least_cloudy [scCloudy, scClear] ptW).1 scClear rfl
  exact ⟨h.1, h.2.1, h.2.2 scCloudy (List.mem_cons_self _ _) rfl⟩

-- ### Spatial partitioning and the per-period match step

/-- `gdf = gdf.sort_values("hd")`: the Point Store sorted by the Hilbert
distance key computed by `dask_geopandas.hilbert_distance` (the key itself is
external, a parameter `hd`). -/
def sortByHd (hd : Point → Nat) (pts : List Point) : List Point :=
  @List.insertionSort Point (fun a b => hd a ≤ hd b)
    (fun a b => Nat.decLe (hd a) (hd b)) pts

/-- `dask_geopandas.from_geopandas(gdf, npartitions=k, sort=False)`: cut the
(already Hilbert-sorted) point list into `k` contiguous chunks, preserving
order. `k = 0` is mapped to a single partition (the notebook uses
`NPARTITIONS = 250`). -/
def splitParts : Nat → List Point → List (List Point)
  | 0, xs => [xs]
  | 1, xs => [xs]
  | n + 2, xs =>
      xs.take ((xs.length + n + 1) / (n + 2)) ::
        splitParts (n + 1) (xs.drop ((xs.length + n + 1) / (n + 2)))

/-- Chunking preserves the sorted order: flattening the partitions gives back
the input list. -/
theorem splitParts_flatten : ∀ (k : Nat) (xs : List Point),
    (splitParts k xs).flatten = xs := by
  intro k
  induction k with
  | zero => intro xs; simp [splitParts]
  | succ n ih =>
    intro xs
    match n, ih with
    | 0, _ => simp [splitParts]
    | m + 1, ih =>
      simp only [splitParts, List.flatten_cons]
      rw [ih]
      exact List.take_append_drop _ xs

/-- `dgdf.map_partitions(query, meta=meta).compute()` with the counting of
catalog round-trips made explicit: partitions are queried one catalog call
each and the per-partition frames are concatenated in partition order.  An
exception raised inside any partition's `query` propagates out of `compute()`
and aborts the period (there is no `try` anywhere around it). -/
def matchPartitionsC (cat : List Point → Except PyExc (List SceneCandidate)) :
    List (List Point) → Nat × Except PyExc (List (Point × Option SceneCandidate))
  | [] => (0, .ok [])
  | ps :: rest =>
    match query cat ps with
    | .error e => (1, .error e)
    | .ok a =>
      match matchPartitionsC cat rest with
      | (n, .error e) => (n + 1, .error e)
      | (n, .ok b) => (n + 1, .ok (a ++ b))

/-- The concatenated match result (`df2`), without the call counter. -/
def matchPartitions (cat : List Point → Except PyExc (List SceneCandidate))
    (parts : List (List Point)) : Except PyExc (List (Point × Option SceneCandidate)) :=
  (matchPartitionsC cat parts).2

/-- The `stac_item` column is added by `points.assign(...)`, so the point
columns of a partition's query result are exactly the partition's points. -/
theorem map_fst_assign (items : List SceneCandidate) (l : List Point) :
    (l.map (fun p => (p, matchPoint items p))).map Prod.fst = l := by
  induction l with
  | nil => rfl
  | cons x xs ih => simp only [List.map_cons]; rw [ih]

/-- A successful match step assigns to exactly the queried points, in
partition order. -/
theorem matchPartitions_points (cat : List Point → Except PyExc (List SceneCandidate)) :
    ∀ (parts : List (List Point)) (assigns : List (Point × Option SceneCandidate)),
    matchPartitions cat parts = .ok assigns → assigns.map Prod.fst = parts.flatten := by
  intro parts
  induction parts with
  | nil =>
    intro assigns h
    simp only [matchPartitions, matchPartitionsC] at h
    cases h
    rfl
  | cons ps rest ih =>
    intro assigns h
    simp only [matchPartitions, matchPartitionsC, query] at h
    rcases hc : cat ps with e | items
    · rw [hc] at h; simp at h
    · rw [hc] at h
      rcases hr : matchPartitionsC cat rest with ⟨n, r⟩
      rw [hr] at h
      rcases r with e | b
      · simp at h
      · simp only at h
        cases h
        have hb := ih b (by simpa [matchPartitions] using congrArg Prod.snd hr)
        simp only [List.map_append, List.flatten_cons, hb, map_fst_assign]

/-- C8 (amended): a zero-candidate catalog response yields a `None` assignment
for every point of the partition; but a catalog exception is treated
differently — `query` has no exception handling, so the error propagates out
of the partition's query and out of the whole match step (there is no
configuration to abort or to continue; the period simply fails). -/
theorem query_zero_candidates_vs_failure
    (cat : List Point → Except PyExc (List SceneCandidate)) :
    (∀ pts, cat pts = .ok [] →
        query cat pts = .ok (pts.map (fun p => (p, none)))) ∧
    (∀ pts e, cat pts = .error e → query cat pts = .error e) ∧
    (∀ parts pts e, pts ∈ parts → cat pts = .error e →
        ∃ e2, matchPartitions cat parts = .error e2) := by
  refine ⟨?_, ?_, ?_⟩
  · intro pts hok
    simp only [query, hok]
    rfl
  · intro pts e herr
    simp only [query, herr]
  · intro parts
    induction parts with
    | nil => intro pts e hmem; simp at hmem
    | cons ps rest ih =>
      intro pts e hmem herr
      rcases List.mem_cons.mp hmem with rfl | hmem2
      · simp only [matchPartitions, matchPartitionsC, query, herr]
        exact ⟨e, rfl⟩
      · simp only [matchPartitions, matchPartitionsC]
        rcases hq : query cat ps with e3 | a
        · exact ⟨e3, rfl⟩
        · rcases hr : matchPartitionsC cat rest with ⟨n, r⟩
          obtain ⟨e2, he2⟩ := ih pts e hmem2 herr
          rw [matchPartitions, hr] at he2
          cases he2
          exact ⟨e2, rfl⟩

/-- A point used in the catalog-failure witness. -/
def ptN : Point := ⟨3, 4⟩

theorem query_zero_candidates_vs_failure_witness :
    query (fun _ => .ok []) [ptN] = .ok [(ptN, none)] ∧
      query (fun _ => .error (.otherExc "socket timeout")) [ptN] =
        .error (.otherExc "socket timeout") := by
  constructor
  · exact (query_zero_candidates_vs_failure (fun _ => .ok [])).1 [ptN] rfl
  · exact (query_zero_candidates_vs_failure
      (fun _ => .error (.otherExc "socket timeout"))).2.1 [ptN] _ rfl

/-- A point whose partition's catalog query fails in the counterexample. -/
def ptF : Point := ⟨5, 6⟩

/-- A catalog whose search raises a service error. -/
def catDown : List Point → Except PyExc (List SceneCandidate) :=
  fun _ => .error (.otherExc "503 service unavailable")

/-- C8 counterexample: with a failing catalog, the match step for the
partition `[ptF]` does not produce the all-`None` assignment the claim
promises — the error propagates instead of being treated as zero
candidates. -/
theorem matchPartitions_error_not_null_assignment :
    matchPartitions catDown [[ptF]] = .error (.otherExc "503 service unavailable") ∧
      matchPartitions catDown [[ptF]] ≠ .ok [(ptF, none)] := by
  constructor
  · rfl
  · intro h
    exact Except.noConfusion (rfl.trans h : (Except.error (PyExc.otherExc "503 service unavailable") : Except PyExc (List (Point × Option SceneCandidate))) = .ok [(ptF, none)])

-- ### Patch extraction and min-max normalization

/-- The raw clipped band stack `data.data` produced inside
`CustomDataset.__getitem__`: a `(time=1, bands, height, width)` pixel array
(the notebook asserts the time dimension is 1, so it is left implicit). -/
structure RawImage where
  c : Nat
  h : Nat
  w : Nat
  pix : Nat → Nat → Nat → ℚ

/-- The flattened pixel values of the whole array, every band included —
the array numpy's `out_image.min()` / `out_image.max()` reduce over. -/
def allPix (img : RawImage) : List ℚ :=
  ((List.range img.c).map (fun ch =>
    ((List.range img.h).map (fun i =>
      (List.range img.w).map (fun j => img.pix ch i j))).flatten)).flatten

/-- `out_image.min()`: the minimum over the whole array (per patch, not per
band). numpy raises on an empty array; the `0` default is junk never reached
by the theorems, which assume a nonempty patch. -/
def imgMin (img : RawImage) : ℚ :=
  match allPix img with
  | [] => 0
  | x :: xs => xs.foldl min x

/-- `out_image.max()`: the maximum over the whole array. -/
def imgMax (img : RawImage) : ℚ :=
  match allPix img with
  | [] => 0
  | x :: xs => xs.foldl max x

/-- The normalized patch fed to the model: same shape, float values that may
be non-finite. -/
structure NormImage where
  c : Nat
  h : Nat
  w : Nat
  pix : Nat → Nat → Nat → FVal

/-- `out_image = ((out_image - out_image.min())) / (out_image.max() - out_image.min())`:
min-max normalization of the whole patch by its own min/max. When the patch
is constant the denominator is zero and every pixel becomes non-finite
(numpy emits `RuntimeWarning`s, which the notebook suppresses). -/
def normalizeImg (img : RawImage) : NormImage :=
  ⟨img.c, img.h, img.w,
    fun ch i j =>
      fdiv (some (img.pix ch i j - imgMin img)) (some (imgMax img - imgMin img))⟩

-- Fold lemmas for the whole-array min/max.

theorem foldl_min_mem : ∀ (xs : List ℚ) (x : ℚ), xs.foldl min x ∈ x :: xs := by
  intro xs
  induction xs with
  | nil => intro x; simp
  | cons y ys ih =>
    intro x
    simp only [List.foldl_cons]
    rcases min_choice x y with hc | hc
    · rw [hc]
      rcases List.mem_cons.mp (ih x) with h2 | h2
      · rw [h2]; exact List.mem_cons_self _ _
      · exact List.mem_cons_of_mem _ (List.mem_cons_of_mem _ h2)
    · rw [hc]
      rcases List.mem_cons.mp (ih y) with h2 | h2
      · rw [h2]; exact List.mem_cons_of_mem _ (List.mem_cons_self _ _)
      · exact List.mem_cons_of_mem _ (List.mem_cons_of_mem _ h2)

theorem foldl_min_le : ∀ (xs : List ℚ) (x y : ℚ), y ∈ x :: xs → xs.foldl min x ≤ y := by
  intro xs
  induction xs with
  | nil =>
    intro x y hy
    simp only [List.mem_singleton] at hy
    simp [hy]
  | cons z zs ih =>
    intro x y hy
    simp only [List.foldl_cons]
    rcases List.mem_cons.mp hy with rfl | hy2
    · exact le_trans (ih (min y z) (min y z) (List.mem_cons_self _ _)) (min_le_left y z)
    · rcases List.mem_cons.mp hy2 with rfl | hy3
      · exact le_trans (ih (min x y) (min x y) (List.mem_cons_self _ _)) (min_le_right x y)
      · exact ih (min x z) y (List.mem_cons_of_mem _ hy3)

theorem foldl_max_mem : ∀ (xs : List ℚ) (x : ℚ), xs.foldl max x ∈ x :: xs := by
  intro xs
  induction xs with
  | nil => intro x; simp
  | cons y ys ih =>
    intro x
    simp only [List.foldl_cons]
    rcases max_choice x y with hc | hc
    · rw [hc]
      rcases List.mem_cons.mp (ih x) with h2 | h2
      · rw [h2]; exact List.mem_cons_self _ _
      · exact List.mem_cons_of_mem _ (List.mem_cons_of_mem _ h2)
    · rw [hc]
      rcases List.mem_cons.mp (ih y) with h2 | h2
      · rw [h2]; exact List.mem_cons_of_mem _ (List.mem_cons_self _ _)
      · exact List.mem_cons_of_mem _ (List.mem_cons_of_mem _ h2)

theorem le_foldl_max : ∀ (xs : List ℚ) (x y : ℚ), y ∈ x :: xs → y ≤ xs.foldl max x := by
  intro xs
  induction xs with
  | nil =>
    intro x y hy
    simp only [List.mem_singleton] at hy
    simp [hy]
  | cons z zs ih =>
    intro x y hy
    simp only [List.foldl_cons]
    rcases List.mem_cons.mp hy with rfl | hy2
    · exact le_trans (le_max_left y z) (ih (max y z) (max y z) (List.mem_cons_self _ _))
    · rcases List.mem_cons.mp hy2 with rfl | hy3
      · exact le_trans (le_max_right x y) (ih (max x y) (max x y) (List.mem_cons_self _ _))
      · exact ih (max x z) y (List.mem_cons_of_mem _ hy3)

/-- The array minimum is attained by some array element. -/
theorem imgMin_mem (img : RawImage) (hne : allPix img ≠ []) :
    imgMin img ∈ allPix img := by
  rw [imgMin]
  rcases hp : allPix img with _ | ⟨x, xs⟩
  · exact absurd hp hne
  · exact foldl_min_mem xs x

/-- The array maximum is attained by some array element. -/
theorem imgMax_mem (img : RawImage) (hne : allPix img ≠ []) :
    imgMax img ∈ allPix img := by
  rw [imgMax]
  rcases hp : allPix img with _ | ⟨x, xs⟩
  · exact absurd hp hne
  · exact foldl_max_mem xs x

/-- Every array element is bounded below by the array minimum. -/
theorem imgMin_le (img : RawImage) (y : ℚ) (hy : y ∈ allPix img) :
    imgMin img ≤ y := by
  rw [imgMin]
  rcases hp : allPix img with _ | ⟨x, xs⟩
  · rw [hp] at hy; simp at hy
  · rw [hp] at hy; exact foldl_min_le xs x y hy

/-- Every array element is bounded above by the array maximum. -/
theorem le_imgMax (img : RawImage) (y : ℚ) (hy : y ∈ allPix img) :
    y ≤ imgMax img := by
  rw [imgMax]
  rcases hp : allPix img with _ | ⟨x, xs⟩
  · rw [hp] at hy; simp at hy
  · rw [hp] at hy; exact le_foldl_max xs x y hy

/-- In-range pixels are elements of the flattened array. -/
theorem pix_mem_allPix (img : RawImage) (ch i j : Nat)
    (hc : ch < img.c) (hi : i < img.h) (hj : j < img.w) :
    img.pix ch i j ∈ allPix img := by
  simp only [allPix, List.mem_flatten, List.mem_map, List.mem_range]
  refine ⟨((List.range img.h).map (fun i2 =>
      (List.range img.w).map (fun j2 => img.pix ch i2 j2))).flatten, ⟨ch, hc, rfl⟩, ?_⟩
  simp only [List.mem_flatten, List.mem_map, List.mem_range]
  exact ⟨(List.range img.w).map (fun j2 => img.pix ch i j2), ⟨i, hi, rfl⟩,
    List.mem_map.mpr ⟨j, List.mem_range.mpr hj, rfl⟩⟩

/-- Conversely, every element of the flattened array is an in-range pixel. -/
theorem allPix_mem_pix (img : RawImage) (y : ℚ) (hy : y ∈ allPix img) :
    ∃ ch i j, ch < img.c ∧ i < img.h ∧ j < img.w ∧ img.pix ch i j = y := by
  simp only [allPix, List.mem_flatten, List.mem_map, List.mem_range] at hy
  obtain ⟨row, ⟨ch, hc, hrow⟩, hy2⟩ := hy
  subst hrow
  simp only [List.mem_flatten, List.mem_map, List.mem_range] at hy2
  obtain ⟨cell, ⟨i, hi, hcell⟩, hy3⟩ := hy2
  subst hcell
  simp only [List.mem_map, List.mem_range] at hy3
  obtain ⟨j, hj, hpix⟩ := hy3
  exact ⟨ch, i, j, hc, hi, hj, hpix⟩

/-- C5: for every valid, non-constant extracted patch, min-max normalization
uses the whole array's own min and max (per patch, not per band): every
normalized pixel is a finite value in `[0, 1]`, the value `0` is attained
(at an array minimum) and the value `1` is attained (at an array maximum). -/
theorem normalizeImg_min_zero_max_one (img : RawImage)
    (hne : allPix img ≠ []) (hnc : imgMin img ≠ imgMax img) :
    (∀ ch i j, ch < img.c → i < img.h → j < img.w →
  ∃ q, (normalizeImg img).pix ch i j = some q ∧ 0 ≤ q ∧ q ≤ 1) ∧
    (∃ ch i j, ch < img.c ∧ i < img.h ∧ j < img.w ∧
  (normalizeImg img).pix ch i j = some 0) ∧
    (∃ ch i j, ch < img.c ∧ i < img.h ∧ j < img.w ∧
  (normalizeImg img).pix ch i j = some 1) := by
  have hle : imgMin img ≤ imgMax img :=
    imgMin_le img (imgMax img) (imgMax_mem img hne)
  have hlt : imgMin img < imgMax img := lt_of_le_of_ne hle hnc
  have hpos : (0 : ℚ) < imgMax img - imgMin img := by linarith
  have hdenom : imgMax img - imgMin img ≠ 0 := ne_of_gt hpos
  refine ⟨?_, ?_, ?_⟩
  · intro ch i j hc hi hj
    have hmem := pix_mem_allPix img ch i j hc hi hj
    refine ⟨(img.pix ch i j - imgMin img) / (imgMax img - imgMin img), ?_, ?_, ?_⟩
    · simp [normalizeImg, fdiv, hdenom]
    · apply div_nonneg _ (le_of_lt hpos)
      have := imgMin_le img (img.pix ch i j) hmem
      linarith
    · rw [div_le_one hpos]
      have := le_imgMax img (img.pix ch i j) hmem
      linarith
  · obtain ⟨ch, i, j, hc, hi, hj, hpix⟩ :=
      allPix_mem_pix img (imgMin img) (imgMin_mem img hne)
    refine ⟨ch, i, j, hc, hi, hj, ?_⟩
    simp [normalizeImg, fdiv, hdenom, hpix]
  · obtain ⟨ch, i, j, hc, hi, hj, hpix⟩ :=
      allPix_mem_pix img (imgMax img) (imgMax_mem img hne)
    refine ⟨ch, i, j, hc, hi, hj, ?_⟩
    simp only [normalizeImg, fdiv, hpix]
    rw [if_neg hdenom, div_self hdenom]

/-- A 1-band 1×2 raw patch with pixel values 3 and 5. -/
def imgTwoPix : RawImage :=
  ⟨1, 1, 2, fun _ _ j => if j = 0 then 3 else 5⟩

theorem normalizeImg_min_zero_max_one_witness :
    ∃ q, (normalizeImg imgTwoPix).pix 0 0 0 = some q ∧ 0 ≤ q ∧ q ≤ 1 :=
  (normalizeImg_min_zero_max_one imgTwoPix (by decide) (by decide)).1
    0 0 0 (by decide) (by decide) (by decide)

-- ### CustomDataset.__getitem__ (patch retrieval with its exception handling)

/-- What one `__getitem__` call produces for the DataLoader: the Python value
`None`, a tensor holding a (normalized) patch, or a raised exception that
escapes the method and kills the loader iteration. -/
inductive ItemResult where
  | nullItem
  | tensor (img : NormImage)
  | exc (e : PyExc)

/-- `CustomDataset.__getitem__`, with the raster read
(`stackstac.stack` + `pyproj` window + `.loc` clip + `.compute()`)
as the external parameter `readScene`:

* `fn is None` → return `None`;
* otherwise run the `try` block: a successful read is normalized and returned
  as a tensor;
* a `ValueError` raised in the `try` block is caught by `except ValueError:
  pass`, after which the method unconditionally evaluates
  `torch.from_numpy(out_image)` — but `out_image` was never assigned, so the
  method raises `UnboundLocalError`;
* any other exception (rasterio decode errors, network errors, ...) is not
  caught at all and propagates as itself. -/
def getItem (fn : Option SceneCandidate)
    (readScene : SceneCandidate → Except PyExc RawImage) : ItemResult :=
  match fn with
  | none => .nullItem
  | some it =>
    match readScene it with
    | .ok raw => .tensor (normalizeImg raw)
    | .error .valueError => .exc .unboundLocalError
    | .error e => .exc e

/-- The scene used in the extraction-failure analysis. -/
def scBroken : SceneCandidate := ⟨9, 1, fun _ => true⟩

/-- C4 (code bug): an exception inside the `try` block of `__getitem__` does
not produce an invalid patch. A `ValueError` is caught, but the fall-through
then reads the unassigned `out_image`, so the call raises
`UnboundLocalError`; any non-`ValueError` extraction exception (here a decode
error) is not caught at all. Either way the exception escapes the extractor
(and, under a multi-worker DataLoader, aborts the whole batch loop). -/
theorem getItem_exception_escapes :
    getItem (some scBroken) (fun _ => .error .valueError) = .exc .unboundLocalError ∧
      getItem (some scBroken) (fun _ => .error (.otherExc "rasterio decode failure")) =
        .exc (.otherExc "rasterio decode failure") :=
  ⟨rfl, rfl⟩

-- ### The RCF feature model

/-- The state of an initialized `RCF` module: `conv1`'s hyperparameters, its
weight tensor (indexed filter → input channel → kernel row → kernel column;
drawn externally from `nn.init.normal_`) and its bias (filled with `-1.0` by
`nn.init.constant_`). -/
structure RCFModel where
  numInputChannels : Nat
  numFilters : Nat
  kernelSize : Nat
  weight : Nat → Nat → Nat → Nat → ℚ
  bias : ℚ

/-- `RCF.__init__(num_features, kernel_size, num_input_channels)`: asserts
that `num_features` is even (`assert num_features % 2 == 0`, an
`AssertionError` otherwise), then builds `conv1` with `num_features // 2`
output filters, stride 1, no padding, and bias constant `-1.0`. -/
def rcfInit (numFeatures kernelSize numInputChannels : Nat)
    (w : Nat → Nat → Nat → Nat → ℚ) : Except PyExc RCFModel :=
  if numFeatures % 2 = 0 then
    .ok ⟨numInputChannels, numFeatures / 2, kernelSize, w, -1⟩
  else
    .error .assertionError

/-- One output position of `self.conv1(x)` for filter `f` at spatial position
`(i, j)`: bias plus the weighted sum over all input channels and the
`kernelSize × kernelSize` window (stride 1, no padding). -/
def convAt (m : RCFModel) (img : NormImage) (f i j : Nat) : FVal :=
  (((List.range m.numInputChannels).map (fun ch =>
    ((List.range m.kernelSize).map (fun a =>
      (List.range m.kernelSize).map (fun b =>
        fmul (some (m.weight f ch a b)) (img.pix ch (i + a) (j + b))))).flatten)).flatten).foldl
    fadd (some m.bias)

/-- Output height of the valid (no-padding, stride-1) convolution. -/
def outDim (n k : Nat) : Nat := n - k + 1

/-- `F.adaptive_avg_pool2d(F.relu(self.conv1(x)), (1, 1))` for one filter:
the mean of the positively-rectified responses over all spatial positions. -/
def poolPos (m : RCFModel) (img : NormImage) (f : Nat) : FVal :=
  let vals := ((List.range (outDim img.h m.kernelSize)).map (fun i =>
    (List.range (outDim img.w m.kernelSize)).map (fun j =>
      frelu (convAt m img f i j)))).flatten
  fdiv (vals.foldl fadd (some 0))
    (some ((outDim img.h m.kernelSize * outDim img.w m.kernelSize : Nat) : ℚ))

/-- `F.adaptive_avg_pool2d(F.relu(-self.conv1(x)), (1, 1))` for one filter:
the mean of the negatively-rectified responses. -/
def poolNeg (m : RCFModel) (img : NormImage) (f : Nat) : FVal :=
  let vals := ((List.range (outDim img.h m.kernelSize)).map (fun i =>
    (List.range (outDim img.w m.kernelSize)).map (fun j =>
      frelu (fneg (convAt m img f i j))))).flatten
  fdiv (vals.foldl fadd (some 0))
    (some ((outDim img.h m.kernelSize * outDim img.w m.kernelSize : Nat) : ℚ))

/-- The shape of `x1a` after `.squeeze()` for a single input: the pooled
tensor has shape `(1, numFilters, 1, 1)` and `squeeze()` drops every
dimension of size 1. -/
def squeezedShape (numFilters : Nat) : List Nat :=
  [1, numFilters, 1, 1].filter (fun d => decide (d ≠ 1))

/-- `RCF.forward(x)` for one DataLoader image (a `(1, bands, h, w)` tensor —
the identity `collate_fn` and the per-image loop mean the model is always
applied to a single input): convolve, rectify both branches, global-average
pool each, `squeeze`, and — if the squeezed result is 1-dimensional —
concatenate the two branches. If the squeezed result is neither 1- nor
2-dimensional (which happens exactly when `numFilters = 1`, i.e.
`num_features = 2`, where `squeeze` collapses the filter axis too) the
function falls off the end and returns Python `None`. -/
def rcfForward (m : RCFModel) (img : NormImage) : Option (List FVal) :=
  let x1a := (List.range m.numFilters).map (poolPos m img)
  let x1b := (List.range m.numFilters).map (poolNeg m img)
  if (squeezedShape m.numFilters).length = 1 then some (x1a ++ x1b) else none

/-- For `numFilters ≠ 1` the squeeze keeps exactly the filter dimension. -/
theorem squeezedShape_of_ne_one (nf : Nat) (h : nf ≠ 1) :
    squeezedShape nf = [nf] := by
  simp [squeezedShape, List.filter, h]

/-- After a successful `RCF.__init__` with feature count other than 2, the
convolution has `F/2` filters and bias `-1`, and `forward` returns the
two-branch concatenation, of length `F`. -/
theorem rcfInit_forward_spec (numFeatures kernelSize numInputChannels : Nat)
    (w : Nat → Nat → Nat → Nat → ℚ) (m : RCFModel)
    (hinit : rcfInit numFeatures kernelSize numInputChannels w = .ok m)
    (hne2 : numFeatures ≠ 2) (img : NormImage) :
    m.numFilters = numFeatures / 2 ∧ m.bias = -1 ∧ m.bias < 0 ∧
      rcfForward m img =
        some ((List.range m.numFilters).map (poolPos m img) ++
          (List.range m.numFilters).map (poolNeg m img)) ∧
      ∃ v, rcfForward m img = some v ∧ v.length = numFeatures := by
  rw [rcfInit] at hinit
  rcases Nat.decEq (numFeatures % 2) 0 with hodd | heven
  · rw [if_neg hodd] at hinit
    exact absurd hinit (by simp)
  · rw [if_pos heven] at hinit
    cases hinit
    have hnf : numFeatures / 2 ≠ 1 := by omega
    have hfwd : rcfForward ⟨numInputChannels, numFeatures / 2, kernelSize, w, -1⟩ img =
        some ((List.range (numFeatures / 2)).map
            (poolPos ⟨numInputChannels, numFeatures / 2, kernelSize, w, -1⟩ img) ++
          (List.range (numFeatures / 2)).map
            (poolNeg ⟨numInputChannels, numFeatures / 2, kernelSize, w, -1⟩ img)) := by
      rw [rcfForward]
      rw [squeezedShape_of_ne_one _ hnf]
      simp
    refine ⟨rfl, rfl, by norm_num, hfwd, _, hfwd, ?_⟩
    simp only [List.length_append, List.length_map, List.length_range]
    omega

/-- C7 (amended): for an even configured feature count `F`, initialization
builds one 2-D convolution with `F/2` output channels and bias the fixed
negative constant `-1.0`, and the forward pass is the concatenation of the
global-average-pooled positive-rectified branch and negative-rectified
branch — so the output vector length is exactly `F` — provided `F ≠ 2`.
(For `F = 2` the single-filter pooled tensor is squeezed to a 0-d scalar and
`forward` returns `None` instead of a length-2 vector; see the
counterexample.) -/
theorem rcfForward_length (numFeatures kernelSize numInputChannels : Nat)
    (w : Nat → Nat → Nat → Nat → ℚ) (m : RCFModel)
    (hinit : rcfInit numFeatures kernelSize numInputChannels w = .ok m)
    (hne2 : numFeatures ≠ 2) (img : NormImage) :
    m.numFilters = numFeatures / 2 ∧ m.bias = -1 ∧ m.bias < 0 ∧
      rcfForward m img =
        some ((List.range m.numFilters).map (poolPos m img) ++
          (List.range m.numFilters).map (poolNeg m img)) ∧
      ∃ v, rcfForward m img = some v ∧ v.length = numFeatures :=
  rcfInit_forward_spec numFeatures kernelSize numInputChannels w m hinit hne2 img

/-- A constant weight tensor used in concrete model instances. -/
def wOne : Nat → Nat → Nat → Nat → ℚ := fun _ _ _ _ => 1

/-- The model `RCF(4, kernel_size=3, num_input_channels=1)` builds. -/
def mF4 : RCFModel := ⟨1, 2, 3, wOne, -1⟩

/-- A 1-band 6×6 normalized image whose pixels are all the finite value 1/2. -/
def imgHalf : NormImage := ⟨1, 6, 6, fun _ _ _ => some (1/2)⟩

theorem rcfForward_length_witness :
    ∃ v, rcfForward mF4 imgHalf = some v ∧ v.length = 4 :=
  (rcfForward_length 4 3 1 wOne mF4 rfl (by decide) imgHalf).2.2.2.2

/-- The model `RCF(2, kernel_size=3, num_input_channels=1)` builds. -/
def mF2 : RCFModel := ⟨1, 1, 3, wOne, -1⟩

/-- C7 counterexample: with the even configured feature count `F = 2`,
`RCF(2)` initializes fine (2 is even), but `forward` on a single image
returns `None` — the pooled `(1, 1, 1, 1)` tensor squeezes to a 0-d scalar,
neither `len(shape) == 1` nor `len(shape) == 2` matches, and the method
falls off the end — so no length-2 feature vector is produced. -/
theorem rcfForward_f2_returns_none :
    rcfInit 2 3 1 wOne = .ok mF2 ∧
      (rcfForward mF2 imgHalf).map List.length ≠ some 2 := by
  constructor
  · rfl
  · intro h
    have h2 : (rcfForward mF2 imgHalf).map List.length = none := rfl
    rw [h2] at h
    exact Option.noConfusion h

-- ### The per-image featurization loop body

/-- One row of a `features_monthly` table: the `num_features` feature columns
followed by `lon`, `lat`, `year`, `month`. -/
structure Row where
  feats : List FVal
  lon : ℚ
  lat : ℚ
  year : Nat
  month : Nat

/-- The pre-zeroed row of `x_all = np.zeros((points.shape[0], num_features))`. -/
def zeroRow (numFeatures : Nat) : List FVal :=
  List.replicate numFeatures (some 0)

/-- The body of the featurization loop for one DataLoader item, producing the
final `x_all[i]` row (or the exception that aborts the loop):

* a `None` item (point without a scene) is skipped — the row stays zero;
* a raised worker exception kills the DataLoader iteration — it propagates;
* a tensor is used only if both spatial dimensions (`image.shape[2]`,
  `image.shape[3]`) reach `min_image_edge`; otherwise the item is skipped
  (`pass`) and the row stays zero, without ever invoking the model;
* on an adequately sized tensor, `feats = model(image).cpu().numpy()` is
  written into the row; if `forward` returned `None` (the `num_features = 2`
  squeeze anomaly), `None.cpu()` raises `AttributeError`, which the
  surrounding `except ValueError` does not catch. -/
def featurizeImage (m : RCFModel) (minImageEdge numFeatures : Nat) :
    ItemResult → Except PyExc (List FVal)
  | .exc e => .error e
  | .nullItem => .ok (zeroRow numFeatures)
  | .tensor img =>
    if minImageEdge ≤ img.h ∧ minImageEdge ≤ img.w then
      match rcfForward m img with
      | some feats => .ok feats
      | none => .error .attributeError
    else
      .ok (zeroRow numFeatures)

/-- An undersized tensor is skipped by the size guard of the loop body: the
row stays zero. -/
theorem featurize_small_aux (m : RCFModel)
    (minImageEdge numFeatures : Nat) (img : NormImage)
    (hsmall : img.h < minImageEdge ∨ img.w < minImageEdge) :
    featurizeImage m minImageEdge numFeatures (.tensor img) =
      .ok (zeroRow numFeatures) := by
  rw [featurizeImage]
  rw [if_neg]
  intro hc
  rcases hsmall with hs | hs
  · exact absurd hc.1 (by omega)
  · exact absurd hc.2 (by omega)

/-- C6: for every matched point whose extracted patch has either spatial
dimension below `min_image_edge`, the patch is rejected by the size guard,
the convolution is never invoked for it (the guard's else-branch is `pass`),
and the output row for that point stays the all-zero vector `x_all` was
initialized with. -/
theorem featurizeImage_small_patch_zero (m : RCFModel)
    (minImageEdge numFeatures : Nat) (img : NormImage)
    (hsmall : img.h < minImageEdge ∨ img.w < minImageEdge) :
    featurizeImage m minImageEdge numFeatures (.tensor img) =
      .ok (zeroRow numFeatures) :=
  featurize_small_aux m minImageEdge numFeatures img hsmall

/-- A 1-band normalized patch of spatial size 3×34: the point sat at a scene
edge, so one dimension is far below the Landsat threshold of 6. -/
def imgEdge : NormImage := ⟨1, 3, 34, fun _ _ _ => some (1/4)⟩

theorem featurizeImage_small_patch_zero_witness :
    featurizeImage mF4 6 4 (.tensor imgEdge) = .ok (zeroRow 4) :=
  featurizeImage_small_patch_zero mF4 6 4 imgEdge (Or.inl (by decide))

-- ### The per-period table (one iteration of the month loop)

/-- `df3 = df2.dropna(subset=["stac_item"])`: keep only the points that were
assigned a scene (`pc.sign` then re-references the same items). The points of
dropped rows simply vanish from the table. -/
def dropUnmatched (assigns : List (Point × Option SceneCandidate)) :
    List (Point × SceneCandidate) :=
  assigns.filterMap (fun pa => pa.2.map (fun s => (pa.1, s)))

/-- The featurization loop over the DataLoader: rows are produced in dataset
order; the first exception escaping an item aborts the whole loop (and hence
the period). -/
def buildRows (f : Point × SceneCandidate → Except PyExc Row) :
    List (Point × SceneCandidate) → Except PyExc (List Row)
  | [] => .ok []
  | x :: xs =>
    match f x with
    | .error e => .error e
    | .ok r =>
      match buildRows f xs with
      | .error e => .error e
      | .ok rs => .ok (r :: rs)

/-- One month iteration of the main loop, with the catalog-call counter in
the first component: Hilbert-sort the points, cut them into `nparts`
partitions, match scenes partition by partition (`df2`), drop unmatched
points (`df3`), then extract and featurize each remaining point in order and
attach `lon`, `lat`, `year`, `month` — `features_monthly` for `(yr, mn)`.
`readScene` is the external raster read for a (point, scene) pair. -/
def periodTableC (m : RCFModel) (numFeatures minImageEdge nparts : Nat)
    (hd : Point → Nat)
    (cat : List Point → Except PyExc (List SceneCandidate))
    (readScene : Point → SceneCandidate → Except PyExc RawImage)
    (pts : List Point) (yr mn : Nat) : Nat × Except PyExc (List Row) :=
  let parts := splitParts nparts (sortByHd hd pts)
  match matchPartitionsC cat parts with
  | (n, .error e) => (n, .error e)
  | (n, .ok assigns) =>
    (n, buildRows (fun ps =>
      (featurizeImage m minImageEdge numFeatures
          (getItem (some ps.2) (readScene ps.1))).map
        (fun feats => ⟨feats, ps.1.lon, ps.1.lat, yr, mn⟩))
      (dropUnmatched assigns))

/-- The `features_monthly` table saved for one `(yr, mn)` period. -/
def periodTable (m : RCFModel) (numFeatures minImageEdge nparts : Nat)
    (hd : Point → Nat)
    (cat : List Point → Except PyExc (List SceneCandidate))
    (readScene : Point → SceneCandidate → Except PyExc RawImage)
    (pts : List Point) (yr mn : Nat) : Except PyExc (List Row) :=
  (periodTableC m numFeatures minImageEdge nparts hd cat readScene pts yr mn).2

/-- If every dataset item featurizes without an escaping exception, the loop
completes, produces one row per (matched) point, in order. -/
theorem buildRows_ok (f : Point × SceneCandidate → Except PyExc Row)
    (xs : List (Point × SceneCandidate))
    (hok : ∀ x ∈ xs, ∃ r, f x = .ok r) :
    ∃ rs, buildRows f xs = .ok rs ∧ rs.length = xs.length ∧
      ∀ i x, xs.get? i = some x → ∃ r, rs.get? i = some r ∧ f x = .ok r := by
  induction xs with
  | nil =>
    refine ⟨[], rfl, rfl, ?_⟩
    intro i x h
    simp at h
  | cons x xs ih =>
    obtain ⟨r, hr⟩ := hok x (List.mem_cons_self _ _)
    obtain ⟨rs, hrs, hlen, hpt⟩ := ih (fun y hy => hok y (List.mem_cons_of_mem _ hy))
    refine ⟨r :: rs, ?_, ?_, ?_⟩
    · rw [buildRows, hr, hrs]
    · simp [hlen]
    · intro i y hy
      cases i with
      | zero =>
        simp only [List.get?] at hy ⊢
        cases hy
        exact ⟨r, rfl, hr⟩
      | succ n =>
        simp only [List.get?] at hy ⊢
        exact hpt n y hy

/-- Like `buildRows_ok`, tracking only the `lon`/`lat` columns of the rows. -/
theorem buildRows_lonlat (f : Point × SceneCandidate → Except PyExc Row)
    (xs : List (Point × SceneCandidate))
    (hok : ∀ x ∈ xs, ∃ r, f x = .ok r ∧ (r.lon, r.lat) = (x.1.lon, x.1.lat)) :
    ∃ rs, buildRows f xs = .ok rs ∧
      rs.map (fun r => (r.lon, r.lat)) = xs.map (fun x => (x.1.lon, x.1.lat)) := by
  induction xs with
  | nil => exact ⟨[], rfl, rfl⟩
  | cons x xs ih =>
    obtain ⟨r, hr, hr2⟩ := hok x (List.mem_cons_self _ _)
    obtain ⟨rs, hrs, hmap⟩ := ih (fun y hy => hok y (List.mem_cons_of_mem _ hy))
    refine ⟨r :: rs, ?_, ?_⟩
    · rw [buildRows, hr, hrs]
    · simp [hmap, hr2]

/-- Every row-producing step of the table loop succeeds when the raster read
of every matched point succeeds and the model was built with an even feature
count other than 2; the produced row carries the point's `lon`/`lat`. -/
theorem featurize_step_ok (m : RCFModel)
    (numFeatures kernelSize numInputChannels : Nat)
    (w : Nat → Nat → Nat → Nat → ℚ) (minImageEdge : Nat)
    (readScene : Point → SceneCandidate → Except PyExc RawImage)
    (yr mn : Nat)
    (hinit : rcfInit numFeatures kernelSize numInputChannels w = .ok m)
    (hne2 : numFeatures ≠ 2)
    (pa : Point × SceneCandidate) (img : RawImage)
    (hread : readScene pa.1 pa.2 = .ok img) :
    ∃ r, (featurizeImage m minImageEdge numFeatures
        (getItem (some pa.2) (readScene pa.1))).map
      (fun feats => (⟨feats, pa.1.lon, pa.1.lat, yr, mn⟩ : Row)) = .ok r ∧
      (r.lon, r.lat) = (pa.1.lon, pa.1.lat) := by
  have hitem : getItem (some pa.2) (readScene pa.1) = .tensor (normalizeImg img) := by
    rw [getItem, hread]
  rw [hitem]
  by_cases hsz : minImageEdge ≤ (normalizeImg img).h ∧ minImageEdge ≤ (normalizeImg img).w
  · obtain ⟨v, hv, _⟩ :=
      (rcfInit_forward_spec numFeatures kernelSize numInputChannels w m hinit hne2
        (normalizeImg img)).2.2.2.2
    rw [featurizeImage, if_pos hsz, hv]
    exact ⟨⟨v, pa.1.lon, pa.1.lat, yr, mn⟩, rfl, rfl⟩
  · rw [featurizeImage, if_neg hsz]
    exact ⟨⟨zeroRow numFeatures, pa.1.lon, pa.1.lat, yr, mn⟩, rfl, rfl⟩

/-- C1 (amended): for every configured period, a completed iteration emits
exactly one output table, but its row count equals the number of points that
were assigned a scene — points with no matched scene are dropped by
`df2.dropna(subset=["stac_item"])` and are absent from the table, not
zero-filled. Only matched points whose extracted patch is unusable
(undersized) appear as all-zero feature rows. -/
theorem periodTable_rows_matched_only (m : RCFModel)
    (numFeatures kernelSize numInputChannels : Nat)
    (w : Nat → Nat → Nat → Nat → ℚ) (minImageEdge nparts : Nat)
    (hd : Point → Nat)
    (cat : List Point → Except PyExc (List SceneCandidate))
    (readScene : Point → SceneCandidate → Except PyExc RawImage)
    (pts : List Point) (yr mn : Nat)
    (assigns : List (Point × Option SceneCandidate))
    (hinit : rcfInit numFeatures kernelSize numInputChannels w = .ok m)
    (hne2 : numFeatures ≠ 2)
    (hmatch : matchPartitions cat (splitParts nparts (sortByHd hd pts)) = .ok assigns)
    (hread : ∀ pa ∈ dropUnmatched assigns, ∃ img, readScene pa.1 pa.2 = .ok img) :
    ∃ rows,
      periodTable m numFeatures minImageEdge nparts hd cat readScene pts yr mn =
        .ok rows ∧
      rows.length = (dropUnmatched assigns).length ∧
      ∀ i pa img, (dropUnmatched assigns).get? i = some pa →
        readScene pa.1 pa.2 = .ok img →
        img.h < minImageEdge ∨ img.w < minImageEdge →
        ∃ r, rows.get? i = some r ∧ r.feats = zeroRow numFeatures ∧
          r.lon = pa.1.lon ∧ r.lat = pa.1.lat := by
  rcases hmp : matchPartitionsC cat (splitParts nparts (sortByHd hd pts)) with ⟨n, res⟩
  have hres : res = .ok assigns := by
    rw [matchPartitions, hmp] at hmatch
    exact hmatch
  subst hres
  have hok : ∀ pa ∈ dropUnmatched assigns,
      ∃ r, (featurizeImage m minImageEdge numFeatures
          (getItem (some pa.2) (readScene pa.1))).map
        (fun feats => (⟨feats, pa.1.lon, pa.1.lat, yr, mn⟩ : Row)) = .ok r := by
    intro pa hpa
    obtain ⟨img, himg⟩ := hread pa hpa
    obtain ⟨r, hr, _⟩ := featurize_step_ok m numFeatures kernelSize numInputChannels
      w minImageEdge readScene yr mn hinit hne2 pa img himg
    exact ⟨r, hr⟩
  obtain ⟨rows, hrows, hlen, hpt⟩ := buildRows_ok _ (dropUnmatched assigns) hok
  refine ⟨rows, ?_, hlen, ?_⟩
  · rw [periodTable, periodTableC, hmp]
    exact hrows
  · intro i pa img hget hrd hsmall
    obtain ⟨r, hri, hr⟩ := hpt i pa hget
    have hitem : getItem (some pa.2) (readScene pa.1) = .tensor (normalizeImg img) := by
      rw [getItem, hrd]
    rw [hitem] at hr
    have hz : featurizeImage m minImageEdge numFeatures (.tensor (normalizeImg img)) =
        .ok (zeroRow numFeatures) :=
      featurize_small_aux m minImageEdge numFeatures (normalizeImg img) hsmall
    rw [hz] at hr
    simp only [Except.map] at hr
    cases hr
    exact ⟨_, hri, rfl, rfl, rfl⟩

/-- C3 (amended): for every period the output rows are in the
Hilbert-key-sorted order of the point store, restricted to matched points —
the per-partition assignments are concatenated back in partition order (which
is the sorted order), the unmatched points are dropped, and no step restores
the original Point Store order before the table is assembled. -/
theorem periodTable_hilbert_order (m : RCFModel)
    (numFeatures kernelSize numInputChannels : Nat)
    (w : Nat → Nat → Nat → Nat → ℚ) (minImageEdge nparts : Nat)
    (hd : Point → Nat)
    (cat : List Point → Except PyExc (List SceneCandidate))
    (readScene : Point → SceneCandidate → Except PyExc RawImage)
    (pts : List Point) (yr mn : Nat)
    (assigns : List (Point × Option SceneCandidate))
    (hinit : rcfInit numFeatures kernelSize numInputChannels w = .ok m)
    (hne2 : numFeatures ≠ 2)
    (hmatch : matchPartitions cat (splitParts nparts (sortByHd hd pts)) = .ok assigns)
    (hread : ∀ pa ∈ dropUnmatched assigns, ∃ img, readScene pa.1 pa.2 = .ok img) :
    assigns.map Prod.fst = sortByHd hd pts ∧
    ∃ rows,
      periodTable m numFeatures minImageEdge nparts hd cat readScene pts yr mn =
        .ok rows ∧
      rows.map (fun r => (r.lon, r.lat)) =
        (dropUnmatched assigns).map (fun pa => (pa.1.lon, pa.1.lat)) := by
  constructor
  · rw [matchPartitions_points cat _ assigns hmatch]
    exact splitParts_flatten nparts (sortByHd hd pts)
  · rcases hmp : matchPartitionsC cat (splitParts nparts (sortByHd hd pts)) with ⟨n, res⟩
    have hres : res = .ok assigns := by
      rw [matchPartitions, hmp] at hmatch
      exact hmatch
    subst hres
    have hok : ∀ pa ∈ dropUnmatched assigns,
        ∃ r, (featurizeImage m minImageEdge numFeatures
            (getItem (some pa.2) (readScene pa.1))).map
          (fun feats => (⟨feats, pa.1.lon, pa.1.lat, yr, mn⟩ : Row)) = .ok r ∧
          (r.lon, r.lat) = (pa.1.lon, pa.1.lat) := by
      intro pa hpa
      obtain ⟨img, himg⟩ := hread pa hpa
      exact featurize_step_ok m numFeatures kernelSize numInputChannels
        w minImageEdge readScene yr mn hinit hne2 pa img himg
    obtain ⟨rows, hrows, hmap⟩ := buildRows_lonlat _ (dropUnmatched assigns) hok
    refine ⟨rows, ?_, hmap⟩
    rw [periodTable, periodTableC, hmp]
    exact hrows

-- ### Concrete instances for the pipeline counterexamples and witnesses

/-- Point A of the two-point store. -/
def ptA : Point := ⟨0, 0⟩

/-- Point B of the two-point store. -/
def ptB : Point := ⟨1, 0⟩

/-- The two-point Point Store, in input order. -/
def ptsTwo : List Point := [ptA, ptB]

/-- A trivial Hilbert key: every point gets the same key, so the stable sort
keeps the input order. -/
def hdConst : Point → Nat := fun _ => 0

/-- A Hilbert key that reverses the two points: `ptA` sorts after `ptB`. -/
def hdSwap : Point → Nat := fun p => if p.lon = 0 then 1 else 0

/-- A scene whose footprint covers only longitude-0 points (so `ptA` but not
`ptB`), with 2% cloud cover. -/
def scOnlyA : SceneCandidate := ⟨3, 2, fun p => decide (p.lon = 0)⟩

/-- A scene whose footprint covers every point, with 1% cloud cover. -/
def scAll : SceneCandidate := ⟨4, 1, fun _ => true⟩

/-- A catalog whose search returns only `scOnlyA`. -/
def catOnlyA : List Point → Except PyExc (List SceneCandidate) :=
  fun _ => .ok [scOnlyA]

/-- A catalog whose search returns only `scAll`. -/
def catAll : List Point → Except PyExc (List SceneCandidate) :=
  fun _ => .ok [scAll]

/-- A constant-valued 1-band 6×6 raw patch (value 5 everywhere). -/
def rawConst : RawImage := ⟨1, 6, 6, fun _ _ _ => 5⟩

/-- A raster read that always yields the full-size constant patch. -/
def readConst : Point → SceneCandidate → Except PyExc RawImage :=
  fun _ _ => .ok rawConst

/-- A 1-band 2×2 raw patch: both spatial dimensions below the Landsat
`min_image_edge` of 6. -/
def rawSmall : RawImage := ⟨1, 2, 2, fun _ _ _ => 5⟩

/-- A raster read that always yields the undersized patch. -/
def readSmall : Point → SceneCandidate → Except PyExc RawImage :=
  fun _ _ => .ok rawSmall

/-- The match-step result for `ptsTwo` against `catOnlyA`: `ptA` is covered,
`ptB` is not. -/
def assignsTwo : List (Point × Option SceneCandidate) :=
  [(ptA, some scOnlyA), (ptB, none)]

/-- C1 counterexample: two input points, a catalog whose single scene covers
only the first — the period table has exactly 1 row, not 2: the unmatched
point is absent rather than present as an all-zero row. (The notebook's own
log shows the same: "Found acceptable images for 14935/19598 points" and
`x_all` is sized by the matched count.) -/
theorem periodTable_drops_unmatched :
    Except.map List.length
        (periodTable mF4 4 6 1 hdConst catOnlyA readConst ptsTwo 2019 8) =
      .ok 1 ∧
    ptsTwo.length = 2 ∧ (1 : Nat) ≠ 2 :=
  ⟨rfl, rfl, by decide⟩

theorem periodTable_rows_matched_only_witness :
    ∃ rows,
      periodTable mF4 4 6 1 hdConst catOnlyA readSmall ptsTwo 2019 8 = .ok rows ∧
        rows.length = 1 := by
  obtain ⟨rows, h1, h2, h3⟩ := periodTable_rows_matched_only mF4 4 3 1 wOne 6 1
    hdConst catOnlyA readSmall ptsTwo 2019 8 assignsTwo rfl (by decide) rfl
    (fun pa _ => ⟨rawSmall, rfl⟩)
  exact ⟨rows, h1, h2⟩

/-- C3 counterexample: with a Hilbert key that reverses the two points and a
scene covering both, the emitted rows are in the sorted order
`[(1,0), (0,0)]`, not the input Point Store order `[(0,0), (1,0)]`. -/
theorem periodTable_not_input_order :
    Except.map (fun rows => rows.map (fun r => (r.lon, r.lat)))
        (periodTable mF4 4 6 1 hdSwap catAll readConst ptsTwo 2019 8) =
      .ok [(1, 0), (0, 0)] ∧
    ptsTwo.map (fun p => (p.lon, p.lat)) = [(0, 0), (1, 0)] ∧
    [((1 : ℚ), (0 : ℚ)), (0, 0)] ≠ [((0 : ℚ), (0 : ℚ)), (1, 0)] :=
  ⟨rfl, rfl, by decide⟩

theorem periodTable_hilbert_order_witness :
    assignsTwo.map Prod.fst = sortByHd hdConst ptsTwo ∧
    ∃ rows,
      periodTable mF4 4 6 1 hdConst catOnlyA readSmall ptsTwo 2019 8 = .ok rows ∧
        rows.map (fun r => (r.lon, r.lat)) = [(0, 0)] := by
  obtain ⟨h0, rows, h1, h2⟩ := periodTable_hilbert_order mF4 4 3 1 wOne 6 1
    hdConst catOnlyA readSmall ptsTwo 2019 8 assignsTwo rfl (by decide) rfl
    (fun pa _ => ⟨rawSmall, rfl⟩)
  exact ⟨h0, rows, h1, h2⟩

-- ### The whole run: model initialization, then the year/month loop

/-- The year/month loop of the notebook with the catalog-call counter in the
first component: one `periodTableC` per configured period, aborting at the
first uncaught exception (the loop body has no `try`). -/
def runPeriodsC (m : RCFModel) (numFeatures minImageEdge nparts : Nat)
    (hd : Point → Nat)
    (cat : List Point → Except PyExc (List SceneCandidate))
    (readScene : Point → SceneCandidate → Except PyExc RawImage)
    (pts : List Point) :
    List (Nat × Nat) → Nat × Except PyExc (List (List Row))
  | [] => (0, .ok [])
  | (yr, mn) :: rest =>
    match periodTableC m numFeatures minImageEdge nparts hd cat readScene pts yr mn with
    | (n, .error e) => (n, .error e)
    | (n, .ok tbl) =>
      match runPeriodsC m numFeatures minImageEdge nparts hd cat readScene pts rest with
      | (n2, .error e) => (n + n2, .error e)
      | (n2, .ok tbls) => (n + n2, .ok (tbl :: tbls))

/-- The run as the notebook executes it: the cell
`model = RCF(num_features).eval().to(device)` runs before the year/month loop
cell, so the model is initialized before any catalog search is issued. The
first component counts catalog calls made; the second is the run outcome
(the saved monthly tables, or the first uncaught exception). -/
def runAll (numFeatures kernelSize numInputChannels : Nat)
    (w : Nat → Nat → Nat → Nat → ℚ) (minImageEdge nparts : Nat)
    (hd : Point → Nat)
    (cat : List Point → Except PyExc (List SceneCandidate))
    (readScene : Point → SceneCandidate → Except PyExc RawImage)
    (pts : List Point) (periods : List (Nat × Nat)) :
    Nat × Except PyExc (List (List Row)) :=
  match rcfInit numFeatures kernelSize numInputChannels w with
  | .error _ => (0, .error .assertionError)
  | .ok m => runPeriodsC m numFeatures minImageEdge nparts hd cat readScene pts periods

/-- C9: if the configured feature count is odd, `RCF.__init__`'s
`assert num_features % 2 == 0` raises `AssertionError` at model
initialization, which happens in a notebook cell executed before the
year/month loop — so the run fails with zero catalog calls made. -/
theorem odd_feature_count_rejected (numFeatures kernelSize numInputChannels : Nat)
    (w : Nat → Nat → Nat → Nat → ℚ) (minImageEdge nparts : Nat)
    (hd : Point → Nat)
    (cat : List Point → Except PyExc (List SceneCandidate))
    (readScene : Point → SceneCandidate → Except PyExc RawImage)
    (pts : List Point) (periods : List (Nat × Nat))
    (hodd : numFeatures % 2 = 1) :
    runAll numFeatures kernelSize numInputChannels w minImageEdge nparts
      hd cat readScene pts periods = (0, .error .assertionError) := by
  rw [runAll, rcfInit, if_neg (by omega)]

theorem odd_feature_count_rejected_witness :
    runAll 1023 3 1 wOne 6 250 hdConst catAll readConst ptsTwo
      [(2019, 8), (2019, 9)] = (0, .error .assertionError) :=
  odd_feature_count_rejected 1023 3 1 wOne 6 250 hdConst catAll readConst ptsTwo
    [(2019, 8), (2019, 9)] (by decide)

-- ### The constant-patch division-by-zero path

/-- A non-finite operand makes `fadd` non-finite (NaN propagation). -/
theorem fadd_none_right (x : FVal) : fadd x none = none := by
  cases x <;> rfl

/-- A non-finite operand makes `fadd` non-finite (NaN propagation). -/
theorem fadd_none_left (x : FVal) : fadd none x = none := by
  cases x <;> rfl

/-- Summation from a non-finite accumulator stays non-finite. -/
theorem foldl_fadd_none_acc (xs : List FVal) : xs.foldl fadd none = none := by
  induction xs with
  | nil => rfl
  | cons y ys ih => rw [List.foldl_cons, fadd_none_left, ih]

/-- A sum over a list containing a non-finite value is non-finite. -/
theorem foldl_fadd_none_mem (xs : List FVal) (v : FVal) (h : none ∈ xs) :
    xs.foldl fadd v = none := by
  induction xs generalizing v with
  | nil => simp at h
  | cons y ys ih =>
    rw [List.foldl_cons]
    rcases List.mem_cons.mp h with h1 | h2
    · rw [← h1, fadd_none_right]
      exact foldl_fadd_none_acc ys
    · exact ih _ h2

/-- A convolution output over an all-non-finite window is non-finite. -/
theorem convAt_none (m : RCFModel) (img : NormImage) (f i j : Nat)
    (hC : 0 < m.numInputChannels) (hK : 0 < m.kernelSize)
    (hpix : ∀ ch i2 j2, img.pix ch i2 j2 = none) :
    convAt m img f i j = none := by
  apply foldl_fadd_none_mem
  simp only [List.mem_flatten, List.mem_map, List.mem_range]
  refine ⟨_, ⟨0, hC, rfl⟩, ?_⟩
  simp only [List.mem_flatten, List.mem_map, List.mem_range]
  refine ⟨_, ⟨0, hK, rfl⟩, ?_⟩
  simp only [List.mem_map, List.mem_range]
  refine ⟨0, hK, ?_⟩
  rw [hpix 0 (i + 0) (j + 0)]
  rfl

/-- The positive pooled branch of an all-NaN image is NaN. -/
theorem poolPos_none (m : RCFModel) (img : NormImage) (f : Nat)
    (hC : 0 < m.numInputChannels) (hK : 0 < m.kernelSize)
    (hh : 0 < outDim img.h m.kernelSize) (hw : 0 < outDim img.w m.kernelSize)
    (hpix : ∀ ch i2 j2, img.pix ch i2 j2 = none) :
    poolPos m img f = none := by
  have hmem : none ∈ ((List.range (outDim img.h m.kernelSize)).map (fun i =>
      (List.range (outDim img.w m.kernelSize)).map (fun j =>
        frelu (convAt m img f i j)))).flatten := by
    simp only [List.mem_flatten, List.mem_map, List.mem_range]
    refine ⟨_, ⟨0, hh, rfl⟩, ?_⟩
    simp only [List.mem_map, List.mem_range]
    refine ⟨0, hw, ?_⟩
    rw [convAt_none m img f 0 0 hC hK hpix]
    rfl
  show fdiv ((((List.range (outDim img.h m.kernelSize)).map (fun i =>
      (List.range (outDim img.w m.kernelSize)).map (fun j =>
        frelu (convAt m img f i j)))).flatten).foldl fadd (some 0)) _ = none
  rw [foldl_fadd_none_mem _ _ hmem]
  rfl

/-- The negative pooled branch of an all-NaN image is NaN. -/
theorem poolNeg_none (m : RCFModel) (img : NormImage) (f : Nat)
    (hC : 0 < m.numInputChannels) (hK : 0 < m.kernelSize)
    (hh : 0 < outDim img.h m.kernelSize) (hw : 0 < outDim img.w m.kernelSize)
    (hpix : ∀ ch i2 j2, img.pix ch i2 j2 = none) :
    poolNeg m img f = none := by
  have hmem : none ∈ ((List.range (outDim img.h m.kernelSize)).map (fun i =>
      (List.range (outDim img.w m.kernelSize)).map (fun j =>
        frelu (fneg (convAt m img f i j))))).flatten := by
    simp only [List.mem_flatten, List.mem_map, List.mem_range]
    refine ⟨_, ⟨0, hh, rfl⟩, ?_⟩
    simp only [List.mem_map, List.mem_range]
    refine ⟨0, hw, ?_⟩
    rw [convAt_none m img f 0 0 hC hK hpix]
    rfl
  show fdiv ((((List.range (outDim img.h m.kernelSize)).map (fun i =>
      (List.range (outDim img.w m.kernelSize)).map (fun j =>
        frelu (fneg (convAt m img f i j))))).flatten).foldl fadd (some 0)) _ = none
  rw [foldl_fadd_none_mem _ _ hmem]
  rfl

set_option maxRecDepth 100000 in
/-- C10: a matched point whose extracted patch is constant-valued hits an
unguarded zero denominator in the normalization (`max - min == 0`), so every
pixel becomes non-finite (numpy's `0/0` NaN, its `RuntimeWarning`
suppressed); the 6×6 patch passes the minimum-edge guard, the model runs on
the NaN pixels, NaN propagates through convolution, rectification and
pooling, and the point's output row is all-NaN — not the all-zero sentinel
that marks unusable points. -/
theorem constant_patch_not_zero_sentinel :
    (∀ ch i j, (normalizeImg rawConst).pix ch i j = none) ∧
    featurizeImage mF4 6 4 (.tensor (normalizeImg rawConst)) =
      .ok (List.replicate 4 (none : FVal)) ∧
    List.replicate 4 (none : FVal) ≠ zeroRow 4 := by
  have hdenom : imgMax rawConst - imgMin rawConst = 0 := by
    have h1 : imgMin rawConst = 5 := by decide
    have h2 : imgMax rawConst = 5 := by decide
    rw [h1, h2]
    norm_num
  have hpix : ∀ ch i j, (normalizeImg rawConst).pix ch i j = none := by
    intro ch i j
    show fdiv (some (rawConst.pix ch i j - imgMin rawConst))
      (some (imgMax rawConst - imgMin rawConst)) = none
    rw [hdenom]
    simp [fdiv]
  have hpos : ∀ f, poolPos mF4 (normalizeImg rawConst) f = none := fun f =>
    poolPos_none mF4 (normalizeImg rawConst) f (by decide) (by decide)
      (by decide) (by decide) hpix
  have hneg : ∀ f, poolNeg mF4 (normalizeImg rawConst) f = none := fun f =>
    poolNeg_none mF4 (normalizeImg rawConst) f (by decide) (by decide)
      (by decide) (by decide) hpix
  have hfwd : rcfForward mF4 (normalizeImg rawConst) =
      some (List.replicate 4 (none : FVal)) := by
    show some ([poolPos mF4 (normalizeImg rawConst) 0,
        poolPos mF4 (normalizeImg rawConst) 1] ++
      [poolNeg mF4 (normalizeImg rawConst) 0,
        poolNeg mF4 (normalizeImg rawConst) 1]) =
      some (List.replicate 4 (none : FVal))
    rw [hpos 0, hpos 1, hneg 0, hneg 1]
    rfl
  refine ⟨hpix, ?_, by decide⟩
  show (match rcfForward mF4 (normalizeImg rawConst) with
    | some feats => (.ok feats : Except PyExc (List FVal))
    | none => .error .attributeError) = .ok (List.replicate 4 (none : FVal))
  rw [hfwd]
